import Mathlib

/-!
# libmoon barrier (src/barrier.cpp, src/barrier_old_old.cpp)

A shallow embedding of the reusable cyclic barrier of `barrier.cpp`, and of
its legacy variant `barrier_old_old.cpp` (namespace `Old`).

Every operation of the source runs with `b->mutex` held, so each call is
one atomic transition of the shared fields; the model of interleaved threads
(`Conc`) runs `barrier_wait` statement by statement and shows that the mutex
makes it so.  The fields are `std::size_t`;
they are modelled as natural numbers with the 64-bit wrap written out
wherever the source does arithmetic on them.
-/

namespace Libmoon

/-- Number of values of a `std::size_t` (64-bit). -/
def SIZE_MOD : Nat := 2 ^ 64

/-- The shared fields of `struct barrier` (the mutex and the condition
variable are represented by the atomicity of the transitions below). -/
structure barrier where
  n : Nat
  threshold : Nat
  generation : Nat
deriving DecidableEq, Repr

/-- All three fields fit a `std::size_t`. -/
def barrier.wf (b : barrier) : Prop :=
  b.n < SIZE_MOD ∧ b.threshold < SIZE_MOD ∧ b.generation < SIZE_MOD

instance (b : barrier) : Decidable b.wf := by
  unfold barrier.wf; infer_instance

/-- Source `make_barrier`: `b->n = n; b->threshold = n; b->generation = 0;`. -/
def make_barrier (n : Nat) : barrier :=
  { n := n, threshold := n, generation := 0 }

/-- The wait predicate of the source, `[=] { return lgen != b->generation; }`. -/
def wait_pred (lgen : Nat) (b : barrier) : Bool :=
  lgen != b.generation

/-- One test of `b->cond.wait(lock, pred)`, which is `while (!pred()) wait(lock);`:
the caller leaves the loop (`none`) when the predicate holds and is suspended
with its snapshot (`some lgen`) otherwise.  The same test runs on entry and
after every wake-up, notified or spurious. -/
def cond_wait (lgen : Nat) (b : barrier) : Option Nat :=
  if wait_pred lgen b then none else some lgen

/-- What one call of `barrier_wait` did: the shared fields when the caller
returns or suspends, whether `notify_all` was called, and the snapshot the
caller is suspended with (`none` when the call returns at once). -/
structure WaitResult where
  state : barrier
  notified : Bool
  suspended : Option Nat
deriving DecidableEq, Repr

/-- Source `barrier_wait`, lines 22-32.  The pre-decrement of the size_t `n`
is written by cases; on size_t values it is subtraction of 1 modulo `2 ^ 64`
(`pre_decrement_mod`). -/
def barrier_wait (b : barrier) : WaitResult :=
  let lgen := b.generation
  -- `--b->n` on a size_t: 0 wraps to the largest value
  let n1 := if b.n = 0 then SIZE_MOD - 1 else b.n - 1
  if n1 = 0 then
    { state := { n := b.threshold, threshold := b.threshold,
                 generation := (b.generation + 1) % SIZE_MOD },
      notified := true,
      suspended := none }
  else
    let b1 : barrier := { n := n1, threshold := b.threshold, generation := b.generation }
    { state := b1, notified := false, suspended := cond_wait lgen b1 }

/-- Source `barrier_reinit`: `b->n = n;` under the lock, nothing else. -/
def barrier_reinit (b : barrier) (n : Nat) : barrier :=
  { n := n, threshold := b.threshold, generation := b.generation }

/-- A barrier together with the snapshots of the callers that are suspended
inside `cond.wait` (most recent first). -/
structure System where
  b : barrier
  waiting : List Nat
deriving DecidableEq, Repr

/-- A fresh caller runs `barrier_wait` on the shared barrier. -/
def System.arrive (s : System) : System :=
  let r := barrier_wait s.b
  { b := r.state,
    waiting := match r.suspended with
      | some lgen => lgen :: s.waiting
      | none => s.waiting }

/-- A client calls `barrier_reinit`; the call contains no wait, so the set of
suspended callers is what it was. -/
def System.reinit (s : System) (n : Nat) : System :=
  { b := barrier_reinit s.b n, waiting := s.waiting }

/-- A barrier with no caller suspended in it. -/
def System.quiescent (b : barrier) : System :=
  { b := b, waiting := [] }

/-- Every suspended caller wakes and tests its predicate once: the callers
whose predicate holds return, the others are suspended again. -/
def System.wake_all (s : System) : System :=
  { b := s.b, waiting := s.waiting.filterMap (fun lgen => cond_wait lgen s.b) }

/-- The calls a client can make on an existing barrier. -/
inductive Op where
  | wait : Op
  | reinit (n : Nat) : Op
deriving DecidableEq, Repr

/-- Effect of one call on the shared fields. -/
def step (b : barrier) : Op → barrier
  | Op.wait => (barrier_wait b).state
  | Op.reinit n => barrier_reinit b n

/-- Whether the call is the last arrival of a round (the branch that calls
`notify_all`). -/
def completes (b : barrier) : Op → Bool
  | Op.wait => (barrier_wait b).notified
  | Op.reinit _ => false

/-- The barrier after a sequence of calls, first call first. -/
def run (b : barrier) : List Op → barrier
  | [] => b
  | op :: ops => run (step b op) ops

/-- Number of rounds completed during a sequence of calls. -/
def rounds_completed (b : barrier) : List Op → Nat
  | [] => 0
  | op :: ops => (if completes b op then 1 else 0) + rounds_completed (step b op) ops

/-- The `barrier_reinit` arguments that keep a round of a barrier of threshold
`N` well formed: between 1 and `N`.  Arrivals are not restricted. -/
def Op.within (N : Nat) : Op → Prop
  | Op.wait => True
  | Op.reinit n => 1 ≤ n ∧ n ≤ N

instance (N : Nat) (op : Op) : Decidable (op.within N) := by
  cases op <;> simp only [Op.within] <;> infer_instance

/-- The error classes an entry point of the barrier could report. -/
inductive BarrierError where
  | InvalidArgument : BarrierError
deriving DecidableEq, Repr

/-- The call `make_barrier(n)` as a client sees it, error or barrier.  The body
of the source (lines 14-20) has no test of `n` and no `throw`: every call
returns the new barrier. -/
def make_barrier_call (n : Nat) : Except BarrierError barrier :=
  Except.ok (make_barrier n)

/-- One suspended caller (position `i` of the wait set) wakes, notified or
spuriously, and tests its predicate: it returns, and leaves the wait set, when
the predicate holds, and is suspended again otherwise. -/
def System.wake (s : System) (i : Nat) : System :=
  match s.waiting.get? i with
  | none => s
  | some lgen =>
    match cond_wait lgen s.b with
    | none => { b := s.b, waiting := s.waiting.eraseIdx i }
    | some _ => s

/-- What can happen to a barrier that is used through `barrier_wait` only: a
new caller arrives, or a suspended caller wakes and tests its predicate. -/
inductive Event where
  | arrive : Event
  | wake (i : Nat) : Event
deriving DecidableEq, Repr

/-- Effect of one event. -/
def System.exec (s : System) : Event → System
  | Event.arrive => s.arrive
  | Event.wake i => s.wake i

/-- The system after a sequence of events, first event first. -/
def System.trace (s : System) : List Event → System
  | [] => s
  | e :: es => System.trace (s.exec e) es

/-- Number of `barrier_wait` calls in a sequence of events. -/
def arrivals_in : List Event → Nat
  | [] => 0
  | Event.arrive :: es => arrivals_in es + 1
  | Event.wake _ :: es => arrivals_in es

/-- Number of suspended callers whose snapshot is the current generation,
the callers that a wake-up suspends again. -/
def System.blocked (s : System) : Nat :=
  s.waiting.count s.b.generation

/-- The start of round `g` of a barrier of `N` participants: all `N` arrivals
missing, nobody suspended. -/
def round_start (N g : Nat) : System :=
  System.quiescent { n := N, threshold := N, generation := g }

/-- Bookkeeping of a barrier of `N` participants after `k` arrivals, none of
them lost to a wrap of `generation`: the fields account for the `k` arrivals,
no suspended caller holds a snapshot above the current generation, and the
callers still blocked are the arrivals of the round in progress. -/
def System.counted (N k : Nat) (s : System) : Prop :=
  s.b.threshold = N ∧ 1 ≤ s.b.n ∧ s.b.n ≤ N ∧
  s.b.generation * N + (N - s.b.n) = k ∧
  (∀ l ∈ s.waiting, l ≤ s.b.generation) ∧
  s.blocked = N - s.b.n

/-! ### The legacy variant (src/barrier_old_old.cpp) -/

namespace Old

/-- The data members of `class Barrier`. -/
structure Barrier where
  mThreshold : Nat
  mCount : Nat
  mGeneration : Nat
deriving DecidableEq, Repr

/-- The constructor `Barrier(iCount)` of the source. -/
def Barrier.ctor (iCount : Nat) : Barrier :=
  { mThreshold := iCount, mCount := iCount, mGeneration := 0 }

/-- What one call of `Barrier::Wait` did (as `WaitResult` for `barrier.cpp`). -/
structure WaitResult where
  state : Barrier
  notified : Bool
  suspended : Option Nat
deriving DecidableEq, Repr

/-- The wait predicate `[this, lGen] { return lGen != mGeneration; }`. -/
def Barrier.pred (lGen : Nat) (self : Barrier) : Bool :=
  lGen != self.mGeneration

/-- Method `Barrier::Wait`, lines 12-22. -/
def Barrier.Wait (self : Barrier) : WaitResult :=
  let lGen := self.mGeneration
  -- `--mCount` on a size_t: 0 wraps to the largest value
  let c1 := if self.mCount = 0 then SIZE_MOD - 1 else self.mCount - 1
  if c1 = 0 then
    { state := { mThreshold := self.mThreshold, mCount := self.mThreshold,
                 mGeneration := (self.mGeneration + 1) % SIZE_MOD },
      notified := true,
      suspended := none }
  else
    let self1 : Barrier :=
      { mThreshold := self.mThreshold, mCount := c1, mGeneration := self.mGeneration }
    { state := self1, notified := false,
      suspended := if Barrier.pred lGen self1 then none else some lGen }

/-- The C handle `struct barrier { Barrier *b; }`. -/
structure barrier where
  b : Barrier
deriving DecidableEq, Repr

/-- What one call of the legacy `barrier_wait` did. -/
structure CallResult where
  state : barrier
  notified : Bool
  suspended : Option Nat
deriving DecidableEq, Repr

/-- Legacy `make_barrier`: `b->b = new Barrier(n)`. -/
def make_barrier (n : Nat) : barrier :=
  { b := Barrier.ctor n }

/-- Legacy `barrier_wait`: `b->b->Wait()`. -/
def barrier_wait (b : barrier) : CallResult :=
  let r := b.b.Wait
  { state := { b := r.state }, notified := r.notified, suspended := r.suspended }

/-- Legacy `barrier_reinit`: the body is the empty statement. -/
def barrier_reinit (b : barrier) (_n : Nat) : barrier :=
  b

/-- The fields of a legacy barrier read as the fields of `barrier.cpp`:
`mCount` is `n`, `mThreshold` is `threshold`, `mGeneration` is `generation`. -/
def barrier.view (b : barrier) : Libmoon.barrier :=
  { n := b.b.mCount, threshold := b.b.mThreshold, generation := b.b.mGeneration }

/-- The state after `k` calls of the legacy `barrier_wait`. -/
def waits : Nat → barrier → barrier
  | 0, b => b
  | k + 1, b => waits k (barrier_wait b).state

/-- A legacy barrier together with the snapshots of the callers suspended in
`mCond.wait` (most recent first). -/
structure System where
  b : barrier
  waiting : List Nat
deriving DecidableEq, Repr

/-- A fresh caller runs the legacy `barrier_wait`. -/
def System.arrive (s : System) : System :=
  let r := barrier_wait s.b
  { b := r.state,
    waiting := match r.suspended with
      | some lGen => lGen :: s.waiting
      | none => s.waiting }

/-- One suspended caller of the legacy barrier wakes and tests the predicate
of `mCond.wait(lLock, pred)`: it returns when the predicate holds and is
suspended again otherwise. -/
def System.wake (s : System) (i : Nat) : System :=
  match s.waiting.get? i with
  | none => s
  | some lGen =>
    if Barrier.pred lGen s.b.b then { b := s.b, waiting := s.waiting.eraseIdx i } else s

/-- A client calls the legacy `barrier_reinit`. -/
def System.reinit (s : System) (n : Nat) : System :=
  { b := barrier_reinit s.b n, waiting := s.waiting }

/-- Effect of one event on the legacy barrier. -/
def System.exec (s : System) : Event → System
  | Event.arrive => s.arrive
  | Event.wake i => s.wake i

/-- The legacy system after a sequence of events, first event first. -/
def System.trace (s : System) : List Event → System
  | [] => s
  | e :: es => System.trace (s.exec e) es

/-- A legacy system read as a system of `barrier.cpp`. -/
def System.view (s : System) : Libmoon.System :=
  { b := s.b.view, waiting := s.waiting }

end Old

/-- The state after `k` calls of `barrier_wait`. -/
def waits : Nat → barrier → barrier
  | 0, b => b
  | k + 1, b => waits k (barrier_wait b).state

/-! ### Threads interleaving inside `barrier_wait` -/

/-- The pre-decrement `--x` of a size_t, as written in `barrier_wait`. -/
def size_dec (x : Nat) : Nat :=
  if x = 0 then SIZE_MOD - 1 else x - 1

/-- Where a thread stands in `barrier_wait` (barrier.cpp lines 22-32).  From
`at_decrement` on, the thread carries its local `lgen`. -/
inductive Pc where
  /-- Outside any call: before calling `barrier_wait`, or returned from it. -/
  | idle : Pc
  /-- Line 24, lock acquired, about to read `b->generation` into `lgen`. -/
  | at_snapshot : Pc
  /-- Line 25, about to run `--b->n`. -/
  | at_decrement (lgen : Nat) : Pc
  /-- Line 25, about to compare the decremented `b->n` with 0. -/
  | at_check (lgen : Nat) : Pc
  /-- Line 26, about to run `b->generation++`. -/
  | at_bump (lgen : Nat) : Pc
  /-- Line 27, about to run `b->n = b->threshold`. -/
  | at_reset (lgen : Nat) : Pc
  /-- Line 28, about to run `b->cond.notify_all()`. -/
  | at_notify (lgen : Nat) : Pc
  /-- Line 30, entering `cond.wait`: first test of the predicate, lock held. -/
  | at_wait (lgen : Nat) : Pc
  /-- Line 30, blocked inside `cond.wait`, lock released. -/
  | asleep (lgen : Nat) : Pc
  /-- Line 30, woken and lock re-acquired: testing the predicate again. -/
  | at_retest (lgen : Nat) : Pc
  /-- Line 32, end of scope: the `unique_lock` is about to release the mutex. -/
  | at_unlock : Pc
deriving DecidableEq, Repr

/-- The positions at which the thread holds `b->mutex`. -/
def Pc.locked : Pc → Bool
  | Pc.idle => false
  | Pc.asleep _ => false
  | _ => true

/-- The barrier shared by the threads `0, 1, 2, ...`: the fields, the owner
of `b->mutex`, and the position of every thread.  `entry` and `served` are
bookkeeping that no step reads: the fields as they were when the running call
took the lock, and the number of calls that have finished their arrival. -/
structure Conc where
  b : barrier
  owner : Option Nat
  pcs : Nat → Pc
  entry : barrier
  served : Nat

/-- Thread `i` moves to position `pc`. -/
def set_pc (pcs : Nat → Pc) (i : Nat) (pc : Pc) : Nat → Pc :=
  fun j => if j = i then pc else pcs j

/-- All threads outside `barrier_wait`, mutex free. -/
def Conc.init (b0 : barrier) : Conc :=
  { b := b0, owner := none, pcs := fun _ => Pc.idle, entry := b0, served := 0 }

/-- Thread `i` runs its next statement.  With `guarded = true` the mutex is a
mutex: taking it (on entry, and on waking inside `cond.wait`) is possible only
while nobody owns it, and a thread that cannot take it stays where it is.
With `guarded = false` the lock is ignored, for comparison.  A sleeping
thread may wake whenever it can take the mutex, which covers `notify_all` and
spurious wake-ups. -/
def Conc.step (guarded : Bool) (s : Conc) (i : Nat) : Conc :=
  match s.pcs i with
  | Pc.idle =>
    if guarded && s.owner.isSome then s
    else { s with owner := some i, pcs := set_pc s.pcs i Pc.at_snapshot, entry := s.b }
  | Pc.at_snapshot =>
    { s with pcs := set_pc s.pcs i (Pc.at_decrement s.b.generation) }
  | Pc.at_decrement lgen =>
    { s with b := { n := size_dec s.b.n, threshold := s.b.threshold,
                    generation := s.b.generation },
             pcs := set_pc s.pcs i (Pc.at_check lgen) }
  | Pc.at_check lgen =>
    if s.b.n = 0 then { s with pcs := set_pc s.pcs i (Pc.at_bump lgen) }
    else { s with pcs := set_pc s.pcs i (Pc.at_wait lgen) }
  | Pc.at_bump lgen =>
    { s with b := { n := s.b.n, threshold := s.b.threshold,
                    generation := (s.b.generation + 1) % SIZE_MOD },
             pcs := set_pc s.pcs i (Pc.at_reset lgen) }
  | Pc.at_reset lgen =>
    { s with b := { n := s.b.threshold, threshold := s.b.threshold,
                    generation := s.b.generation },
             pcs := set_pc s.pcs i (Pc.at_notify lgen) }
  | Pc.at_notify _ =>
    { s with pcs := set_pc s.pcs i Pc.at_unlock, served := s.served + 1 }
  | Pc.at_wait lgen =>
    if wait_pred lgen s.b then
      { s with pcs := set_pc s.pcs i Pc.at_unlock, served := s.served + 1 }
    else
      { s with owner := none, pcs := set_pc s.pcs i (Pc.asleep lgen),
               served := s.served + 1 }
  | Pc.asleep lgen =>
    if guarded && s.owner.isSome then s
    else { s with owner := some i, pcs := set_pc s.pcs i (Pc.at_retest lgen) }
  | Pc.at_retest lgen =>
    if wait_pred lgen s.b then { s with pcs := set_pc s.pcs i Pc.at_unlock }
    else { s with owner := none, pcs := set_pc s.pcs i (Pc.asleep lgen) }
  | Pc.at_unlock =>
    { s with owner := none, pcs := set_pc s.pcs i Pc.idle }

/-- An interleaving: the threads named in the schedule step one after the
other. -/
def Conc.exec (guarded : Bool) (s : Conc) : List Nat → Conc
  | [] => s
  | i :: rest => Conc.exec guarded (s.step guarded i) rest

/-- What holds of the shared fields while a thread stands at `pc` with the
mutex: how far the fields have moved from `entry`, the fields at the time the
call took the lock, towards `(barrier_wait entry).state`. -/
def Conc.in_flight (b0 : barrier) (s : Conc) : Pc → Prop
  | Pc.idle => True
  | Pc.asleep _ => True
  | Pc.at_snapshot => s.entry = waits s.served b0 ∧ s.b = s.entry
  | Pc.at_decrement lgen =>
    s.entry = waits s.served b0 ∧ lgen = s.entry.generation ∧ s.b = s.entry
  | Pc.at_check lgen =>
    s.entry = waits s.served b0 ∧ lgen = s.entry.generation ∧
    s.b = { n := size_dec s.entry.n, threshold := s.entry.threshold,
            generation := s.entry.generation }
  | Pc.at_bump lgen =>
    s.entry = waits s.served b0 ∧ lgen = s.entry.generation ∧ size_dec s.entry.n = 0 ∧
    s.b = { n := 0, threshold := s.entry.threshold, generation := s.entry.generation }
  | Pc.at_reset lgen =>
    s.entry = waits s.served b0 ∧ lgen = s.entry.generation ∧ size_dec s.entry.n = 0 ∧
    s.b = { n := 0, threshold := s.entry.threshold,
            generation := (s.entry.generation + 1) % SIZE_MOD }
  | Pc.at_notify lgen =>
    s.entry = waits s.served b0 ∧ lgen = s.entry.generation ∧ size_dec s.entry.n = 0 ∧
    s.b = { n := s.entry.threshold, threshold := s.entry.threshold,
            generation := (s.entry.generation + 1) % SIZE_MOD }
  | Pc.at_wait lgen =>
    s.entry = waits s.served b0 ∧ lgen = s.entry.generation ∧ size_dec s.entry.n ≠ 0 ∧
    s.b = { n := size_dec s.entry.n, threshold := s.entry.threshold,
            generation := s.entry.generation }
  | Pc.at_retest _ => s.b = waits s.served b0
  | Pc.at_unlock => s.b = waits s.served b0

/-- The invariant of the guarded interleavings: a thread that stands inside
the locked region owns the mutex; while the mutex is free the fields are those
left by `served` whole calls of `barrier_wait`, one after the other; and the
owner is as far into its own call as its position says. -/
def Conc.ok (b0 : barrier) (s : Conc) : Prop :=
  (∀ j, (s.pcs j).locked = true → s.owner = some j) ∧
  (s.owner = none → s.b = waits s.served b0) ∧
  (∀ i, s.owner = some i → s.in_flight b0 (s.pcs i))

/-! ## Basic facts about one call -/

theorem size_mod_pos : 0 < SIZE_MOD := by
  unfold SIZE_MOD; norm_num

/-- The pre-decrement written in `barrier_wait` is subtraction of 1 modulo
`2 ^ 64` on every size_t value. -/
theorem pre_decrement_mod (c : Nat) (h : c < SIZE_MOD) :
    (if c = 0 then SIZE_MOD - 1 else c - 1) = (c + SIZE_MOD - 1) % SIZE_MOD := by
  by_cases h0 : c = 0
  · subst h0
    simp only [if_true, Nat.zero_add]
    exact (Nat.mod_eq_of_lt (Nat.sub_lt size_mod_pos Nat.one_pos)).symm
  · have hc : c + SIZE_MOD - 1 = (c - 1) + SIZE_MOD := by omega
    rw [if_neg h0, hc, Nat.add_mod_right, Nat.mod_eq_of_lt (by omega)]

theorem size_max_ne_zero : SIZE_MOD - 1 ≠ 0 := by
  unfold SIZE_MOD; norm_num

theorem bump_ne (g : Nat) : (g + 1) % SIZE_MOD ≠ g := by
  intro h
  have hlt : (g + 1) % SIZE_MOD < SIZE_MOD := Nat.mod_lt _ size_mod_pos
  rw [h] at hlt
  by_cases hg : g + 1 < SIZE_MOD
  · rw [Nat.mod_eq_of_lt hg] at h; omega
  · have hg2 : g + 1 = SIZE_MOD := by omega
    rw [hg2, Nat.mod_self] at h
    have h2 : 2 ≤ SIZE_MOD := by unfold SIZE_MOD; norm_num
    omega

theorem wait_last (b : barrier) (h : b.n = 1) :
    barrier_wait b =
      { state := { n := b.threshold, threshold := b.threshold,
                   generation := (b.generation + 1) % SIZE_MOD },
        notified := true, suspended := none } := by
  simp [barrier_wait, h]

theorem wait_not_last (b : barrier) (h1 : 2 ≤ b.n) :
    barrier_wait b =
      { state := { n := b.n - 1, threshold := b.threshold, generation := b.generation },
        notified := false, suspended := some b.generation } := by
  have h0 : b.n ≠ 0 := by omega
  have hne : b.n - 1 ≠ 0 := by omega
  simp [barrier_wait, h0, hne, cond_wait, wait_pred]

theorem wait_wrap (b : barrier) (h : b.n = 0) :
    barrier_wait b =
      { state := { n := SIZE_MOD - 1, threshold := b.threshold, generation := b.generation },
        notified := false, suspended := some b.generation } := by
  have hz := size_max_ne_zero
  simp [barrier_wait, h, hz, cond_wait, wait_pred]

/-- The three cases of `barrier_wait`, by the value of `n` on entry. -/
theorem wait_cases (b : barrier) :
    (b.n = 1 ∧ barrier_wait b =
      { state := { n := b.threshold, threshold := b.threshold,
                   generation := (b.generation + 1) % SIZE_MOD },
        notified := true, suspended := none }) ∨
    (b.n ≠ 1 ∧ (barrier_wait b).state.generation = b.generation ∧
      (barrier_wait b).state.threshold = b.threshold ∧
      (barrier_wait b).notified = false ∧
      (barrier_wait b).suspended = some b.generation) := by
  by_cases h1 : b.n = 1
  · exact Or.inl ⟨h1, wait_last b h1⟩
  · right
    by_cases h0 : b.n = 0
    · rw [wait_wrap b h0]
      exact ⟨h1, rfl, rfl, rfl, rfl⟩
    · rw [wait_not_last b (by omega)]
      exact ⟨h1, rfl, rfl, rfl, rfl⟩

theorem arrive_last (s : System) (h : s.b.n = 1) :
    s.arrive =
      { b := { n := s.b.threshold, threshold := s.b.threshold,
               generation := (s.b.generation + 1) % SIZE_MOD },
        waiting := s.waiting } := by
  simp only [System.arrive, wait_last s.b h]

theorem arrive_not_last (s : System) (h1 : 2 ≤ s.b.n) :
    s.arrive =
      { b := { n := s.b.n - 1, threshold := s.b.threshold, generation := s.b.generation },
        waiting := s.b.generation :: s.waiting } := by
  simp only [System.arrive, wait_not_last s.b h1]

/-- As long as the round is not complete, `k` arrivals only count down and
queue `k` callers holding the generation of the round. -/
theorem arrive_iterate (s : System) :
    ∀ k, k < s.b.n →
      System.arrive^[k] s =
        { b := { n := s.b.n - k, threshold := s.b.threshold, generation := s.b.generation },
          waiting := List.replicate k s.b.generation ++ s.waiting } := by
  intro k
  induction k with
  | zero => intro _; simp
  | succ k ih =>
    intro hk
    rw [Function.iterate_succ_apply', ih (by omega)]
    rw [arrive_not_last _ (by simp only; omega)]
    simp only [List.replicate_succ, List.cons_append, System.mk.injEq, barrier.mk.injEq,
      and_true, true_and]
    omega

theorem succ_div_mod (N k : Nat) (hN : 0 < N) :
    (k % N + 1 < N → (k + 1) / N = k / N ∧ (k + 1) % N = k % N + 1) ∧
    (k % N + 1 = N → (k + 1) / N = k / N + 1 ∧ (k + 1) % N = 0) := by
  have hk : k % N + N * (k / N) = k := Nat.mod_add_div k N
  constructor
  · intro h
    exact (Nat.div_mod_unique hN).2 ⟨by omega, h⟩
  · intro h
    refine (Nat.div_mod_unique hN).2 ⟨?_, hN⟩
    rw [Nat.mul_add, Nat.mul_one]
    omega

/-- Closed form of the state after `k` arrivals on a fresh barrier. -/
theorem arrivals_from_fresh (N : Nat) (h1 : 1 ≤ N) (k : Nat) :
    (System.arrive^[k] (System.quiescent (make_barrier N))).b =
      { n := N - k % N, threshold := N, generation := (k / N) % SIZE_MOD } := by
  induction k with
  | zero => simp [System.quiescent, make_barrier, Nat.mod_eq_of_lt size_mod_pos]
  | succ k ih =>
    rw [Function.iterate_succ_apply']
    have hr : k % N < N := Nat.mod_lt k h1
    obtain ⟨ha, hb⟩ := succ_div_mod N k h1
    by_cases hlast : k % N + 1 = N
    · obtain ⟨hd, hm⟩ := hb hlast
      rw [arrive_last _ (by rw [ih]; simp only; omega), ih, hd, hm]
      simp only [Nat.sub_zero, Nat.mod_add_mod]
    · obtain ⟨hd, hm⟩ := ha (by omega)
      rw [arrive_not_last _ (by rw [ih]; simp only; omega), ih, hd, hm]
      simp only [barrier.mk.injEq, and_true]
      omega

/-- One whole round seen from a state that needs `c` more arrivals: the
first `c - 1` calls suspend, the `c`-th is the last arrival. -/
theorem round_of (s : System) (c : Nat) (hc : s.b.n = c) (h1 : 1 ≤ c) :
    (∀ j, j < c - 1 →
      barrier_wait (System.arrive^[j] s).b =
        { state := { n := c - j - 1, threshold := s.b.threshold, generation := s.b.generation },
          notified := false, suspended := some s.b.generation }) ∧
    barrier_wait (System.arrive^[c - 1] s).b =
      { state := { n := s.b.threshold, threshold := s.b.threshold,
                   generation := (s.b.generation + 1) % SIZE_MOD },
        notified := true, suspended := none } ∧
    System.arrive^[c] s =
      { b := { n := s.b.threshold, threshold := s.b.threshold,
               generation := (s.b.generation + 1) % SIZE_MOD },
        waiting := List.replicate (c - 1) s.b.generation ++ s.waiting } := by
  subst hc
  have hit := arrive_iterate s
  refine ⟨?_, ?_, ?_⟩
  · intro j hj
    rw [hit j (by omega), wait_not_last _ (by simp only; omega)]
  · rw [hit (s.b.n - 1) (by omega), wait_last _ (by simp only; omega)]
  · have hs : s.b.n = (s.b.n - 1) + 1 := by omega
    conv_lhs => rw [hs]
    rw [Function.iterate_succ_apply', hit (s.b.n - 1) (by omega),
      arrive_last _ (by simp only; omega)]

theorem wait_pred_replicate (k g : Nat) (b : barrier) (v : Bool)
    (h : wait_pred g b = v) : ∀ l ∈ List.replicate k g, wait_pred l b = v := by
  intro l hl
  rw [List.eq_of_mem_replicate hl]
  exact h

theorem wake_all_blocked (s : System) (h : ∀ l ∈ s.waiting, wait_pred l s.b = false) :
    s.wake_all = s := by
  obtain ⟨b, w⟩ := s
  simp only [System.wake_all, System.mk.injEq, true_and]
  simp only at h
  induction w with
  | nil => rfl
  | cons a t ih =>
    have ha : wait_pred a b = false := h a (List.mem_cons_self a t)
    have ht := ih (fun l hl => h l (List.mem_cons_of_mem a hl))
    have hc : cond_wait a b = some a := by simp [cond_wait, ha]
    rw [List.filterMap_cons]
    simp only [hc, ht]

theorem wake_all_released (s : System) (h : ∀ l ∈ s.waiting, wait_pred l s.b = true) :
    s.wake_all.waiting = [] := by
  obtain ⟨b, w⟩ := s
  simp only [System.wake_all]
  simp only at h
  induction w with
  | nil => rfl
  | cons a t ih =>
    have ha : wait_pred a b = true := h a (List.mem_cons_self a t)
    have ht := ih (fun l hl => h l (List.mem_cons_of_mem a hl))
    have hc : cond_wait a b = none := by simp [cond_wait, ha]
    rw [List.filterMap_cons]
    simp only [hc, ht]

theorem dvd_succ_iff (N k : Nat) (hN : 0 < N) : N ∣ k + 1 ↔ k % N + 1 = N := by
  obtain ⟨ha, hb⟩ := succ_div_mod N k hN
  have hr : k % N < N := Nat.mod_lt k hN
  constructor
  · intro hd
    by_contra hne
    have hm := (ha (by omega)).2
    rw [Nat.mod_eq_zero_of_dvd hd] at hm
    omega
  · intro h
    exact Nat.dvd_of_mod_eq_zero (hb h).2

/-- A barrier of threshold 1 never has a suspended caller. -/
theorem arrivals_threshold_one (k : Nat) :
    System.arrive^[k] (System.quiescent (make_barrier 1)) =
      { b := { n := 1, threshold := 1, generation := k % SIZE_MOD }, waiting := [] } := by
  induction k with
  | zero => simp [System.quiescent, make_barrier, Nat.mod_eq_of_lt size_mod_pos]
  | succ k ih =>
    rw [Function.iterate_succ_apply', ih, arrive_last _ rfl]
    simp only [Nat.mod_add_mod]

/-! Unfolding equations of the call-sequence model, stated by hand (each is
the definition read off one constructor). -/

theorem step_wait (b : barrier) : step b Op.wait = (barrier_wait b).state := rfl

theorem step_reinit (b : barrier) (m : Nat) : step b (Op.reinit m) = barrier_reinit b m := rfl

theorem completes_wait (b : barrier) : completes b Op.wait = (barrier_wait b).notified := rfl

theorem completes_reinit (b : barrier) (m : Nat) : completes b (Op.reinit m) = false := rfl

theorem run_nil (b : barrier) : run b [] = b := rfl

theorem run_cons (b : barrier) (op : Op) (ops : List Op) :
    run b (op :: ops) = run (step b op) ops := rfl

theorem rounds_completed_nil (b : barrier) : rounds_completed b [] = 0 := rfl

theorem rounds_completed_cons (b : barrier) (op : Op) (ops : List Op) :
    rounds_completed b (op :: ops) =
      (if completes b op then 1 else 0) + rounds_completed (step b op) ops := rfl

theorem within_reinit (N m : Nat) : (Op.reinit m).within N = (1 ≤ m ∧ m ≤ N) := rfl

theorem step_generation (b : barrier) (op : Op) :
    (step b op).generation =
      if completes b op = true then (b.generation + 1) % SIZE_MOD else b.generation := by
  cases op with
  | wait =>
    rw [step_wait, completes_wait]
    rcases wait_cases b with ⟨_, h⟩ | ⟨_, hg, _, hn, _⟩
    · rw [h]
      simp
    · rw [hg, hn]
      simp
  | reinit m =>
    rw [step_reinit, completes_reinit]
    simp [barrier_reinit]

theorem completes_iff (b : barrier) (op : Op) :
    completes b op = true ↔ op = Op.wait ∧ b.n = 1 := by
  cases op with
  | wait =>
    rw [completes_wait]
    rcases wait_cases b with ⟨h1, h⟩ | ⟨h1, _, _, hn, _⟩
    · rw [h]
      simp [h1]
    · rw [hn]
      simp [h1]
  | reinit m =>
    rw [completes_reinit]
    simp

theorem run_append (b : barrier) (p q : List Op) :
    run b (p ++ q) = run (run b p) q := by
  induction p generalizing b with
  | nil => rfl
  | cons op p ih => rw [List.cons_append, run_cons, run_cons, ih]

theorem rounds_completed_append (b : barrier) (p q : List Op) :
    rounds_completed b (p ++ q) = rounds_completed b p + rounds_completed (run b p) q := by
  induction p generalizing b with
  | nil => rw [List.nil_append, rounds_completed_nil, run_nil, Nat.zero_add]
  | cons op p ih =>
    rw [List.cons_append, rounds_completed_cons, rounds_completed_cons, run_cons, ih,
      Nat.add_assoc]

theorem run_generation (b : barrier) (ops : List Op) :
    (run b ops).generation % SIZE_MOD =
      (b.generation + rounds_completed b ops) % SIZE_MOD := by
  induction ops generalizing b with
  | nil => rw [run_nil, rounds_completed_nil, Nat.add_zero]
  | cons op ops ih =>
    rw [run_cons, rounds_completed_cons, ih, step_generation]
    by_cases hc : completes b op = true
    · simp only [hc, if_true]
      rw [Nat.add_mod, Nat.mod_mod, ← Nat.add_mod, Nat.add_assoc]
    · simp only [hc]
      simp

theorem run_generation_lt (n : Nat) (ops : List Op) :
    (run (make_barrier n) ops).generation < SIZE_MOD := by
  induction ops using List.reverseRecOn with
  | nil => exact size_mod_pos
  | append_singleton ops op ih =>
    rw [run_append, run_cons, run_nil, step_generation]
    split
    · exact Nat.mod_lt _ size_mod_pos
    · exact ih

theorem run_generation_fresh (n : Nat) (ops : List Op) :
    (run (make_barrier n) ops).generation =
      rounds_completed (make_barrier n) ops % SIZE_MOD := by
  have h := run_generation (make_barrier n) ops
  rw [Nat.mod_eq_of_lt (run_generation_lt n ops)] at h
  rw [h]
  simp [make_barrier]

theorem run_waits_one (k : Nat) :
    run (make_barrier 1) (List.replicate k Op.wait) =
      { n := 1, threshold := 1, generation := k % SIZE_MOD } := by
  induction k with
  | zero =>
    rw [List.replicate_zero, run_nil]
    simp [make_barrier, Nat.mod_eq_of_lt size_mod_pos]
  | succ k ih =>
    rw [List.replicate_succ', run_append, ih, run_cons, run_nil, step_wait, wait_last _ rfl]
    simp only [Nat.mod_add_mod]

/-- The range invariant that arrivals and in-range reinitialisations keep. -/
theorem step_keeps_range (N : Nat) (b : barrier) (op : Op)
    (hop : op.within N) (hb : 1 ≤ b.n ∧ b.n ≤ b.threshold ∧ b.threshold = N) :
    1 ≤ (step b op).n ∧ (step b op).n ≤ (step b op).threshold ∧ (step b op).threshold = N := by
  obtain ⟨hb1, hb2, hb3⟩ := hb
  cases op with
  | wait =>
    rw [step_wait]
    by_cases h1 : b.n = 1
    · rw [wait_last b h1]
      simp only
      omega
    · rw [wait_not_last b (by omega)]
      simp only
      omega
  | reinit m =>
    rw [within_reinit] at hop
    rw [step_reinit]
    simp only [barrier_reinit]
    omega

theorem run_keeps_range (N : Nat) (ops : List Op) :
    ∀ b : barrier, (∀ op ∈ ops, op.within N) →
      (1 ≤ b.n ∧ b.n ≤ b.threshold ∧ b.threshold = N) →
      1 ≤ (run b ops).n ∧ (run b ops).n ≤ (run b ops).threshold ∧ (run b ops).threshold = N := by
  induction ops with
  | nil => intro b _ hb; exact hb
  | cons op ops ih =>
    intro b hops hb
    rw [run_cons]
    exact ih (step b op) (fun o ho => hops o (List.mem_cons_of_mem op ho))
      (step_keeps_range N b op (hops op (List.mem_cons_self op ops)) hb)

/-! ### Facts used for the legacy variant, the wrap and the starved barrier -/

theorem waits_succ (k : Nat) (b : barrier) :
    waits (k + 1) b = waits k (barrier_wait b).state := rfl

theorem old_waits_succ (k : Nat) (b : Old.barrier) :
    Old.waits (k + 1) b = Old.waits k (Old.barrier_wait b).state := rfl

/-- One legacy call does to the legacy fields what `barrier_wait` of
`barrier.cpp` does to `n`, `threshold`, `generation`, with the same decision. -/
theorem old_wait_sim (b : Old.barrier) :
    (Old.barrier_wait b).state.view = (barrier_wait b.view).state ∧
    (Old.barrier_wait b).notified = (barrier_wait b.view).notified ∧
    (Old.barrier_wait b).suspended = (barrier_wait b.view).suspended := by
  obtain ⟨⟨t, c, g⟩⟩ := b
  simp only [Old.barrier_wait, Old.Barrier.Wait, Old.Barrier.pred, Old.barrier.view,
    barrier_wait, cond_wait, wait_pred]
  by_cases h0 : c = 0
  · have hz := size_max_ne_zero
    simp [h0, hz]
  · by_cases h1 : c - 1 = 0
    · simp [h0, h1]
    · simp [h0, h1]

theorem old_waits_sim (k : Nat) : ∀ b : Old.barrier,
    (Old.waits k b).view = waits k b.view := by
  induction k with
  | zero => intro b; rfl
  | succ k ih =>
    intro b
    rw [old_waits_succ, waits_succ, ih, (old_wait_sim b).1]

theorem size_max_succ_mod : (SIZE_MOD - 1 + 1) % SIZE_MOD = 0 := by
  rw [Nat.sub_add_cancel size_mod_pos, Nat.mod_self]

/-- A barrier entered with `n = 0`: the count wraps and the next `2^64 - 1`
calls only count down. -/
theorem starved (s : System) (h : s.b.n = 0) :
    s.arrive =
      { b := { n := SIZE_MOD - 1, threshold := s.b.threshold, generation := s.b.generation },
        waiting := s.b.generation :: s.waiting } ∧
    ∀ k, k < SIZE_MOD - 1 →
      (System.arrive^[k + 1] s).b =
        { n := SIZE_MOD - 1 - k, threshold := s.b.threshold, generation := s.b.generation } := by
  have h1 : s.arrive =
      { b := { n := SIZE_MOD - 1, threshold := s.b.threshold, generation := s.b.generation },
        waiting := s.b.generation :: s.waiting } := by
    simp only [System.arrive, wait_wrap s.b h]
  refine ⟨h1, ?_⟩
  intro k hk
  rw [Function.iterate_succ_apply, arrive_iterate _ k (by rw [h1]; exact hk), h1]

/-! ### Facts used for the separation of rounds -/

theorem add_mod_ne (g d : Nat) (hg : g < SIZE_MOD) (h1 : 1 ≤ d) (h2 : d < SIZE_MOD) :
    (g + d) % SIZE_MOD ≠ g := by
  by_cases hlt : g + d < SIZE_MOD
  · rw [Nat.mod_eq_of_lt hlt]; omega
  · have hsplit : g + d = (g + d - SIZE_MOD) + SIZE_MOD := by omega
    rw [hsplit, Nat.add_mod_right, Nat.mod_eq_of_lt (by omega)]
    omega

/-- Closed form of the shared fields `k` arrivals after the start of round `g`. -/
theorem arrivals_from_round (N g : Nat) (h1 : 1 ≤ N) (hg : g < SIZE_MOD) (k : Nat) :
    (System.arrive^[k] (round_start N g)).b =
      { n := N - k % N, threshold := N, generation := (g + k / N) % SIZE_MOD } := by
  induction k with
  | zero => simp [round_start, System.quiescent, Nat.mod_eq_of_lt hg]
  | succ k ih =>
    rw [Function.iterate_succ_apply']
    have hr : k % N < N := Nat.mod_lt k h1
    obtain ⟨ha, hb⟩ := succ_div_mod N k h1
    by_cases hlast : k % N + 1 = N
    · obtain ⟨hd, hm⟩ := hb hlast
      rw [arrive_last _ (by rw [ih]; simp only; omega), ih, hd, hm]
      simp only [Nat.sub_zero, Nat.mod_add_mod, Nat.add_assoc]
    · obtain ⟨hd, hm⟩ := ha (by omega)
      rw [arrive_not_last _ (by rw [ih]; simp only; omega), ih, hd, hm]
      simp only [barrier.mk.injEq, and_true]
      omega

/-- The state when round `g` has just completed: the `N - 1` callers of round
`g` are still in the wait set, the barrier is at the start of the next round. -/
theorem round_completed (N g : Nat) (h1 : 1 ≤ N) :
    System.arrive^[N] (round_start N g) =
      { b := { n := N, threshold := N, generation := (g + 1) % SIZE_MOD },
        waiting := List.replicate (N - 1) g } := by
  have h := (round_of (round_start N g) N rfl h1).2.2
  rw [h]
  simp [round_start, System.quiescent]

/-- The state `k < N` arrivals into the round that follows round `g`. -/
theorem next_round_underway (N g k : Nat) (h1 : 1 ≤ N) (hk : k < N) :
    System.arrive^[k + N] (round_start N g) =
      { b := { n := N - k, threshold := N, generation := (g + 1) % SIZE_MOD },
        waiting := List.replicate k ((g + 1) % SIZE_MOD) ++ List.replicate (N - 1) g } := by
  rw [Function.iterate_add_apply, round_completed N g h1, arrive_iterate _ k hk]

/-! ### Facts used for the waiter count -/

theorem exec_arrive (s : System) : s.exec Event.arrive = s.arrive := rfl

theorem exec_wake (s : System) (i : Nat) : s.exec (Event.wake i) = s.wake i := rfl

theorem trace_nil (s : System) : s.trace [] = s := rfl

theorem trace_cons (s : System) (e : Event) (es : List Event) :
    s.trace (e :: es) = (s.exec e).trace es := rfl

theorem arrivals_in_arrive (es : List Event) :
    arrivals_in (Event.arrive :: es) = arrivals_in es + 1 := rfl

theorem arrivals_in_wake (i : Nat) (es : List Event) :
    arrivals_in (Event.wake i :: es) = arrivals_in es := rfl

theorem trace_arrivals (k : Nat) : ∀ s : System,
    s.trace (List.replicate k Event.arrive) = System.arrive^[k] s := by
  induction k with
  | zero => intro s; rfl
  | succ k ih =>
    intro s
    rw [List.replicate_succ, trace_cons, exec_arrive, ih, Function.iterate_succ_apply]

theorem arrivals_in_replicate (k : Nat) :
    arrivals_in (List.replicate k Event.arrive) = k := by
  induction k with
  | zero => rfl
  | succ k ih => rw [List.replicate_succ, arrivals_in_arrive, ih]

/-- Removing an element other than `a` keeps the number of `a`. -/
theorem count_eraseIdx_ne (a : Nat) : ∀ (w : List Nat) (i x : Nat),
    w.get? i = some x → x ≠ a → (w.eraseIdx i).count a = w.count a := by
  intro w
  induction w with
  | nil => intro i x h; simp at h
  | cons y t ih =>
    intro i x h hx
    cases i with
    | zero =>
      simp only [List.get?_cons_zero, Option.some.injEq] at h
      subst h
      rw [List.eraseIdx_cons_zero, List.count_cons_of_ne (Ne.symm hx)]
    | succ j =>
      simp only [List.get?_cons_succ] at h
      rw [List.eraseIdx_cons_succ, List.count_cons, List.count_cons, ih j x h hx]

/-- A wake-up either changes nothing or removes a caller whose snapshot is
not the current generation. -/
theorem wake_cases (s : System) (i : Nat) :
    s.wake i = s ∨
    ∃ x, s.waiting.get? i = some x ∧ x ≠ s.b.generation ∧
      s.wake i = { b := s.b, waiting := s.waiting.eraseIdx i } := by
  unfold System.wake
  cases hget : s.waiting.get? i with
  | none => exact Or.inl rfl
  | some x =>
    by_cases hx : x = s.b.generation
    · left
      simp [cond_wait, wait_pred, hx]
    · right
      refine ⟨x, rfl, hx, ?_⟩
      simp [cond_wait, wait_pred, hx]

theorem counted_start (N : Nat) (hN : 1 ≤ N) :
    (System.quiescent (make_barrier N)).counted N 0 := by
  refine ⟨rfl, hN, Nat.le_refl N, ?_, ?_, ?_⟩
  · simp [System.quiescent, make_barrier]
  · intro l hl
    simp [System.quiescent] at hl
  · simp [System.blocked, System.quiescent, make_barrier]

theorem counted_wake (N k : Nat) (s : System) (i : Nat) (h : s.counted N k) :
    (s.wake i).counted N k := by
  rcases wake_cases s i with hsame | ⟨x, hget, hx, hw⟩
  · rw [hsame]; exact h
  · obtain ⟨h1, h2, h3, h4, h5, h6⟩ := h
    rw [hw]
    refine ⟨h1, h2, h3, h4, ?_, ?_⟩
    · intro l hl
      exact h5 l ((List.eraseIdx_sublist s.waiting i).subset hl)
    · simp only [System.blocked]
      rw [count_eraseIdx_ne s.b.generation s.waiting i x hget hx]
      exact h6

theorem counted_arrive (N k : Nat) (s : System) (h : s.counted N k)
    (hk : k + 1 < SIZE_MOD * N) : s.arrive.counted N (k + 1) := by
  obtain ⟨h1, h2, h3, h4, h5, h6⟩ := h
  by_cases hlast : s.b.n = 1
  · have hmul : (s.b.generation + 1) * N < SIZE_MOD * N := by
      rw [Nat.add_mul, Nat.one_mul]
      omega
    have hgen : s.b.generation + 1 < SIZE_MOD := Nat.lt_of_mul_lt_mul_right hmul
    rw [arrive_last s hlast, Nat.mod_eq_of_lt hgen, h1]
    refine ⟨rfl, by simp only; omega, Nat.le_refl N, ?_, ?_, ?_⟩
    · simp only
      rw [Nat.add_mul, Nat.one_mul]
      omega
    · intro l hl
      exact Nat.le_succ_of_le (h5 l hl)
    · simp only [System.blocked, Nat.sub_self]
      apply List.count_eq_zero_of_not_mem
      intro hmem
      have := h5 _ hmem
      omega
  · rw [arrive_not_last s (by omega)]
    refine ⟨h1, by simp only; omega, by simp only; omega, ?_, ?_, ?_⟩
    · simp only
      omega
    · intro l hl
      simp only [List.mem_cons] at hl
      rcases hl with rfl | hl
      · exact Nat.le_refl _
      · exact h5 l hl
    · simp only [System.blocked] at h6 ⊢
      rw [List.count_cons_self, h6]
      omega

theorem counted_trace (N : Nat) (es : List Event) : ∀ (s : System) (k : Nat),
    s.counted N k → k + arrivals_in es < SIZE_MOD * N →
      (s.trace es).counted N (k + arrivals_in es) := by
  induction es with
  | nil => intro s k h _; exact h
  | cons e es ih =>
    intro s k h hk
    cases e with
    | arrive =>
      rw [arrivals_in_arrive] at hk ⊢
      rw [trace_cons, exec_arrive]
      have := ih s.arrive (k + 1) (counted_arrive N k s h (by omega)) (by omega)
      rw [show k + (arrivals_in es + 1) = k + 1 + arrivals_in es by omega]
      exact this
    | wake i =>
      rw [arrivals_in_wake] at hk ⊢
      rw [trace_cons, exec_wake]
      exact ih (s.wake i) k (counted_wake N k s i h) hk

theorem arrive_keeps (s : System) (l : Nat) (h : l ∈ s.waiting) : l ∈ s.arrive.waiting := by
  simp only [System.arrive]
  cases (barrier_wait s.b).suspended with
  | none => exact h
  | some x => exact List.mem_cons_of_mem x h

theorem arrive_iterate_keeps (k : Nat) : ∀ (s : System) (l : Nat),
    l ∈ s.waiting → l ∈ (System.arrive^[k] s).waiting := by
  induction k with
  | zero => intro s l h; exact h
  | succ k ih =>
    intro s l h
    rw [Function.iterate_succ_apply]
    exact ih s.arrive l (arrive_keeps s l h)

/-- The first caller of a barrier of two participants stays in the wait set
for as long as nobody wakes it. -/
theorem first_waiter_stays (k : Nat) :
    0 ∈ (System.arrive^[k + 1] (System.quiescent (make_barrier 2))).waiting := by
  rw [Function.iterate_succ_apply]
  apply arrive_iterate_keeps
  rw [arrive_not_last _ (by decide)]
  exact List.mem_cons_self _ _

/-! ### Facts used for the legacy wait set -/

theorem old_pred_eq (l : Nat) (b : Old.barrier) :
    Old.Barrier.pred l b.b = wait_pred l b.view := rfl

theorem old_trace_nil (s : Old.System) : s.trace [] = s := rfl

theorem old_trace_cons (s : Old.System) (e : Event) (es : List Event) :
    s.trace (e :: es) = (s.exec e).trace es := rfl

theorem old_arrive_sim (s : Old.System) : s.arrive.view = s.view.arrive := by
  obtain ⟨h1, _, h3⟩ := old_wait_sim s.b
  simp only [Old.System.arrive, Old.System.view, System.arrive]
  rw [h1, h3]

theorem old_wake_sim (s : Old.System) (i : Nat) : (s.wake i).view = s.view.wake i := by
  simp only [Old.System.wake, System.wake, Old.System.view]
  cases hget : s.waiting.get? i with
  | none => rfl
  | some l =>
    simp only [cond_wait, old_pred_eq]
    by_cases hp : wait_pred l s.b.view = true
    · simp [hp]
    · simp [hp]

theorem old_trace_sim (es : List Event) : ∀ s : Old.System,
    (s.trace es).view = s.view.trace es := by
  induction es with
  | nil => intro s; rfl
  | cons e es ih =>
    intro s
    rw [old_trace_cons, trace_cons, ih]
    cases e with
    | arrive =>
      have h : (s.exec Event.arrive).view = s.view.exec Event.arrive := old_arrive_sim s
      rw [h]
    | wake i =>
      have h : (s.exec (Event.wake i)).view = s.view.exec (Event.wake i) := old_wake_sim s i
      rw [h]

/-! ### Facts used for the interleaved threads -/

theorem waits_zero (b : barrier) : waits 0 b = b := rfl

theorem conc_exec_nil (g : Bool) (s : Conc) : s.exec g [] = s := rfl

/-- C1 (no premature release, then release of the whole group).  From a
barrier with `n = threshold = N`, `1 ≤ N`, and no suspended caller: each of
the first `N - 1` calls of `barrier_wait` suspends its caller with the
generation of the round as snapshot and does not notify; after any `k ≤ N - 1`
arrivals the `k` suspended callers all have a false wait predicate, so waking
them (notified or spuriously) releases nobody; the `N`-th call notifies and
does not suspend, and after it the predicate of all `N - 1` suspended callers
is true, so a wake-up empties the wait set. -/
theorem no_premature_release (N : Nat) (b : barrier)
    (hN : 1 ≤ N) (hn : b.n = N) (ht : b.threshold = N) :
    (∀ j, j < N - 1 →
      (barrier_wait (System.arrive^[j] (System.quiescent b)).b).suspended
          = some b.generation ∧
      (barrier_wait (System.arrive^[j] (System.quiescent b)).b).notified = false) ∧
    (∀ k, k ≤ N - 1 →
      (System.arrive^[k] (System.quiescent b)).waiting = List.replicate k b.generation ∧
      (∀ l ∈ (System.arrive^[k] (System.quiescent b)).waiting,
        wait_pred l (System.arrive^[k] (System.quiescent b)).b = false) ∧
      (System.arrive^[k] (System.quiescent b)).wake_all
        = System.arrive^[k] (System.quiescent b)) ∧
    (barrier_wait (System.arrive^[N - 1] (System.quiescent b)).b).suspended = none ∧
    (barrier_wait (System.arrive^[N - 1] (System.quiescent b)).b).notified = true ∧
    (System.arrive^[N] (System.quiescent b)).waiting = List.replicate (N - 1) b.generation ∧
    (∀ l ∈ (System.arrive^[N] (System.quiescent b)).waiting,
      wait_pred l (System.arrive^[N] (System.quiescent b)).b = true) ∧
    (System.arrive^[N] (System.quiescent b)).wake_all.waiting = [] := by
  have hq : (System.quiescent b).b.n = N := hn
  obtain ⟨hfirst, hlast, hall⟩ := round_of (System.quiescent b) N hq hN
  have hit := arrive_iterate (System.quiescent b)
  have hrel : ∀ l ∈ (System.arrive^[N] (System.quiescent b)).waiting,
      wait_pred l (System.arrive^[N] (System.quiescent b)).b = true := by
    rw [hall]
    simp only [System.quiescent, List.append_nil]
    apply wait_pred_replicate
    simp only [wait_pred, bne_iff_ne, ne_eq]
    exact fun h => bump_ne b.generation h.symm
  refine ⟨?_, ?_, ?_, ?_, ?_, hrel, wake_all_released _ hrel⟩
  · intro j hj
    rw [hfirst j hj]
    exact ⟨rfl, rfl⟩
  · intro k hk
    have hblocked : ∀ l ∈ (System.arrive^[k] (System.quiescent b)).waiting,
        wait_pred l (System.arrive^[k] (System.quiescent b)).b = false := by
      rw [hit k (by rw [hq]; omega)]
      simp only [System.quiescent, List.append_nil]
      apply wait_pred_replicate
      simp [wait_pred]
    refine ⟨?_, hblocked, wake_all_blocked _ hblocked⟩
    rw [hit k (by rw [hq]; omega)]
    simp [System.quiescent]
  · rw [hlast]
  · rw [hlast]
  · rw [hall]
    simp [System.quiescent]

/-- Witness for C1 with `N = 3` and a barrier in generation 7. -/
theorem no_premature_release_witness :
    (System.arrive^[2] (System.quiescent { n := 3, threshold := 3, generation := 7 })).waiting
        = [7, 7] ∧
    (System.arrive^[3]
        (System.quiescent { n := 3, threshold := 3, generation := 7 })).wake_all.waiting = [] := by
  have h := no_premature_release 3 { n := 3, threshold := 3, generation := 7 }
    (by decide) rfl rfl
  exact ⟨(h.2.1 2 (by decide)).1, h.2.2.2.2.2.2⟩

/-- C2 (exactly `threshold` arrivals per round, for any number of rounds).
After `k` calls of `barrier_wait` on `make_barrier N`, `1 ≤ N`, the fields are
`n = N - k mod N`, `threshold = N`, `generation = (k / N) mod 2^64`; call
number `k + 1` is a last arrival (it notifies, and it changes `generation`)
exactly when `N` divides `k + 1`. -/
theorem exactly_threshold_arrivals (N k : Nat) (h1 : 1 ≤ N) :
    (System.arrive^[k] (System.quiescent (make_barrier N))).b =
      { n := N - k % N, threshold := N, generation := (k / N) % SIZE_MOD } ∧
    ((barrier_wait (System.arrive^[k] (System.quiescent (make_barrier N))).b).notified = true
      ↔ N ∣ k + 1) ∧
    ((System.arrive^[k + 1] (System.quiescent (make_barrier N))).b.generation ≠
        (System.arrive^[k] (System.quiescent (make_barrier N))).b.generation
      ↔ N ∣ k + 1) := by
  have hk := arrivals_from_fresh N h1 k
  have hk1 := arrivals_from_fresh N h1 (k + 1)
  have hr : k % N < N := Nat.mod_lt k h1
  obtain ⟨ha, hb⟩ := succ_div_mod N k h1
  refine ⟨hk, ?_, ?_⟩
  · rw [dvd_succ_iff N k h1, hk]
    by_cases hlast : k % N + 1 = N
    · rw [wait_last _ (by simp only; omega)]
      simp [hlast]
    · rw [wait_not_last _ (by simp only; omega)]
      simp [hlast]
  · rw [dvd_succ_iff N k h1, hk, hk1]
    simp only [ne_eq]
    by_cases hlast : k % N + 1 = N
    · rw [(hb hlast).1]
      simp only [hlast, iff_true]
      rw [← Nat.mod_add_mod]
      exact bump_ne _
    · rw [(ha (by omega)).1]
      simp [hlast]

/-- Witness for C2: two participants, 2000 arrivals, 1000 rounds. -/
theorem exactly_threshold_arrivals_witness :
    (System.arrive^[2000] (System.quiescent (make_barrier 2))).b =
      { n := 2, threshold := 2, generation := 1000 } := by
  have h := (exactly_threshold_arrivals 2 2000 (by decide)).1
  rw [h]
  simp only [barrier.mk.injEq, SIZE_MOD]
  norm_num

/-- C3 (last-arrival step).  When `n = 1`, `barrier_wait` replaces
`generation` by `generation + 1` in size_t arithmetic (so by exactly
`generation + 1` unless `generation` is the largest size_t), sets `n` to
`threshold`, keeps `threshold`, calls `notify_all`, and the caller is not
suspended. -/
theorem last_arrival_step (b : barrier) (h : b.n = 1) :
    (barrier_wait b).state.generation = (b.generation + 1) % SIZE_MOD ∧
    (b.generation + 1 < SIZE_MOD → (barrier_wait b).state.generation = b.generation + 1) ∧
    (barrier_wait b).state.n = b.threshold ∧
    (barrier_wait b).state.threshold = b.threshold ∧
    (barrier_wait b).notified = true ∧
    (barrier_wait b).suspended = none := by
  rw [wait_last b h]
  exact ⟨rfl, fun hg => Nat.mod_eq_of_lt hg, rfl, rfl, rfl, rfl⟩

/-- Witness for C3: the last of three arrivals in generation 41. -/
theorem last_arrival_step_witness :
    (barrier_wait { n := 1, threshold := 3, generation := 41 }).state
      = { n := 3, threshold := 3, generation := 42 } ∧
    (barrier_wait { n := 1, threshold := 3, generation := 41 }).suspended = none := by
  have h := last_arrival_step { n := 1, threshold := 3, generation := 41 } rfl
  refine ⟨?_, h.2.2.2.2.2⟩
  have hg := h.2.1 (by unfold SIZE_MOD; norm_num)
  have hn := h.2.2.1
  have ht := h.2.2.2.1
  generalize (barrier_wait { n := 1, threshold := 3, generation := 41 }).state = st at hg hn ht
  obtain ⟨n, t, g⟩ := st
  simp only at hg hn ht
  rw [hg, hn, ht]

/-- C4 (non-last-arrival step).  When `2 ≤ n`, `barrier_wait`
lowers `n` by one, keeps `generation` and `threshold`, does not notify, and
suspends the caller with the generation at arrival as snapshot.  At every
later test of the wait predicate, against any state of the barrier, the caller
leaves the wait exactly when the shared generation differs from its snapshot
and is suspended again when it is equal; in particular a spurious wake-up in
the state the call left is suspended again. -/
theorem non_last_arrival_step (b : barrier) (h1 : 2 ≤ b.n) :
    (barrier_wait b).state.n = b.n - 1 ∧
    (barrier_wait b).state.generation = b.generation ∧
    (barrier_wait b).state.threshold = b.threshold ∧
    (barrier_wait b).notified = false ∧
    (barrier_wait b).suspended = some b.generation ∧
    (∀ later : barrier,
      (cond_wait b.generation later = none ↔ later.generation ≠ b.generation) ∧
      (cond_wait b.generation later = some b.generation ↔ later.generation = b.generation)) ∧
    cond_wait b.generation (barrier_wait b).state = some b.generation := by
  rw [wait_not_last b h1]
  refine ⟨rfl, rfl, rfl, rfl, rfl, ?_, ?_⟩
  · intro later
    by_cases hg : later.generation = b.generation
    · simp [cond_wait, wait_pred, hg]
    · have hg2 : ¬ b.generation = later.generation := fun h => hg h.symm
      simp [cond_wait, wait_pred, hg, hg2]
  · simp [cond_wait, wait_pred]

/-- Witness for C4: the first of three arrivals in generation 5. -/
theorem non_last_arrival_step_witness :
    (barrier_wait { n := 3, threshold := 3, generation := 5 }).state.n = 2 ∧
    (barrier_wait { n := 3, threshold := 3, generation := 5 }).suspended = some 5 := by
  have h := non_last_arrival_step { n := 3, threshold := 3, generation := 5 } (by decide)
  exact ⟨h.1, h.2.2.2.2.1⟩

/-- C5 (construction postcondition).  `make_barrier n` has `n = n`,
`threshold = n` and `generation = 0`, for every `n`. -/
theorem make_barrier_post (n : Nat) :
    (make_barrier n).n = n ∧ (make_barrier n).threshold = n ∧
    (make_barrier n).generation = 0 :=
  ⟨rfl, rfl, rfl⟩

/-- C6 (reinitialize frame).  `barrier_reinit b m` sets `n` to `m` and keeps
`threshold` and `generation`; as a call on the shared barrier it suspends
nobody: the set of suspended callers is unchanged, whatever `m` is. -/
theorem reinit_frame (s : System) (m : Nat) :
    (barrier_reinit s.b m).n = m ∧
    (barrier_reinit s.b m).threshold = s.b.threshold ∧
    (barrier_reinit s.b m).generation = s.b.generation ∧
    (s.reinit m).b = barrier_reinit s.b m ∧
    (s.reinit m).waiting = s.waiting :=
  ⟨rfl, rfl, rfl, rfl, rfl⟩

/-- C7 (reinitialize only resizes the round in progress).  Take a quiescent
barrier of threshold `N ≥ 1` and `m ≥ 1`.  After
`barrier_reinit b m` the first `m - 1` arrivals suspend, the `m`-th is the
last arrival, and the state is then `n = N`, `threshold = N` in the next
generation; the round that follows needs `N` arrivals: its first `N - 1`
arrivals suspend and its `N`-th is the last arrival. -/
theorem reinit_resizes_one_round (b : barrier) (N m : Nat)
    (hN : 1 ≤ N) (ht : b.threshold = N) (hm : 1 ≤ m) :
    (∀ j, j < m - 1 →
      (barrier_wait (System.arrive^[j] ((System.quiescent b).reinit m)).b).notified = false ∧
      (barrier_wait (System.arrive^[j] ((System.quiescent b).reinit m)).b).suspended
        = some b.generation) ∧
    (barrier_wait (System.arrive^[m - 1] ((System.quiescent b).reinit m)).b).notified = true ∧
    (barrier_wait (System.arrive^[m - 1] ((System.quiescent b).reinit m)).b).suspended = none ∧
    (System.arrive^[m] ((System.quiescent b).reinit m)).b =
      { n := N, threshold := N, generation := (b.generation + 1) % SIZE_MOD } ∧
    (∀ j, j < N - 1 →
      (barrier_wait (System.arrive^[j + m] ((System.quiescent b).reinit m)).b).notified = false ∧
      (barrier_wait (System.arrive^[j + m] ((System.quiescent b).reinit m)).b).suspended
        = some ((b.generation + 1) % SIZE_MOD)) ∧
    (barrier_wait (System.arrive^[N - 1 + m] ((System.quiescent b).reinit m)).b).notified
      = true ∧
    (System.arrive^[N + m] ((System.quiescent b).reinit m)).b.n = N := by
  obtain ⟨hfirst, hlast, hall⟩ :=
    round_of ((System.quiescent b).reinit m) m rfl hm
  have hb : (System.arrive^[m] ((System.quiescent b).reinit m)).b =
      { n := N, threshold := N, generation := (b.generation + 1) % SIZE_MOD } := by
    rw [hall]
    simp only [System.reinit, System.quiescent, barrier_reinit, ht]
  obtain ⟨hfirst2, hlast2, hall2⟩ :=
    round_of (System.arrive^[m] ((System.quiescent b).reinit m)) N (by rw [hb]) hN
  refine ⟨?_, ?_, ?_, hb, ?_, ?_, ?_⟩
  · intro j hj
    rw [hfirst j hj]
    exact ⟨rfl, rfl⟩
  · rw [hlast]
  · rw [hlast]
  · intro j hj
    rw [Function.iterate_add_apply, hfirst2 j hj, hb]
    exact ⟨rfl, rfl⟩
  · rw [Function.iterate_add_apply, hlast2]
  · rw [Function.iterate_add_apply, hall2, hb]

/-- Witness for C7: a barrier of threshold 3 reinitialised to 2. -/
theorem reinit_resizes_one_round_witness :
    (System.arrive^[2]
      ((System.quiescent { n := 3, threshold := 3, generation := 0 }).reinit 2)).b =
      { n := 3, threshold := 3, generation := (0 + 1) % SIZE_MOD } :=
  (reinit_resizes_one_round { n := 3, threshold := 3, generation := 0 } 3 2
    (by decide) rfl (by decide)).2.2.2.1

/-- C10 (threshold-1 barrier).  On `make_barrier 1`, after any number `k` of
earlier calls nobody is suspended and `n = 1`; the next `barrier_wait` is a
last arrival: it notifies, does not suspend its caller, replaces `generation`
by `generation + 1` in size_t arithmetic, and leaves `n = 1`. -/
theorem threshold_one_always_last (k : Nat) :
    (System.arrive^[k] (System.quiescent (make_barrier 1))).waiting = [] ∧
    (System.arrive^[k] (System.quiescent (make_barrier 1))).b.n = 1 ∧
    (System.arrive^[k] (System.quiescent (make_barrier 1))).b.generation = k % SIZE_MOD ∧
    (barrier_wait (System.arrive^[k] (System.quiescent (make_barrier 1))).b).notified = true ∧
    (barrier_wait (System.arrive^[k] (System.quiescent (make_barrier 1))).b).suspended = none ∧
    (barrier_wait (System.arrive^[k] (System.quiescent (make_barrier 1))).b).state.generation
      = ((System.arrive^[k] (System.quiescent (make_barrier 1))).b.generation + 1) % SIZE_MOD ∧
    (barrier_wait (System.arrive^[k] (System.quiescent (make_barrier 1))).b).state.n = 1 := by
  rw [arrivals_threshold_one k, wait_last _ rfl]
  exact ⟨rfl, rfl, rfl, rfl, rfl, rfl, rfl⟩

/-- C8 as stated fails at the size_t wrap: after `2^64 - 1` calls on
`make_barrier 1` the generation is `2^64 - 1`, and the next call, a last
arrival, takes it down to 0. -/
theorem generation_decreases_at_wrap :
    (run (make_barrier 1) (List.replicate 18446744073709551615 Op.wait)).generation
      = 18446744073709551615 ∧
    completes (run (make_barrier 1) (List.replicate 18446744073709551615 Op.wait)) Op.wait
      = true ∧
    (step (run (make_barrier 1) (List.replicate 18446744073709551615 Op.wait)) Op.wait).generation
      = 0 := by
  rw [run_waits_one, completes_wait, step_wait, wait_last _ rfl]
  refine ⟨?_, rfl, ?_⟩
  · show 18446744073709551615 % SIZE_MOD = 18446744073709551615
    unfold SIZE_MOD
    norm_num
  · show (18446744073709551615 % SIZE_MOD + 1) % SIZE_MOD = 0
    unfold SIZE_MOD
    norm_num

/-- C8, amended (generation counts completed rounds modulo `2^64`).  In every
state reached from `make_barrier n` by calls of `barrier_wait` and
`barrier_reinit`, `generation` is the number of rounds completed so far modulo
`2^64`.  A call completes a round exactly when it is a `barrier_wait` entered
with `n = 1`; a call that does not complete a round leaves `generation` as it
was, and one that does replaces it by `generation + 1` modulo `2^64`.  Hence
below the largest size_t a call never lowers `generation` and raises it by
exactly 1 exactly when it completes a round, and over a call sequence that
completes fewer than `2^64` rounds `generation` never decreases. -/
theorem generation_counts_rounds (n : Nat) (ops more : List Op) (op : Op) :
    (run (make_barrier n) ops).generation
      = rounds_completed (make_barrier n) ops % SIZE_MOD ∧
    (completes (run (make_barrier n) ops) op = true ↔
      op = Op.wait ∧ (run (make_barrier n) ops).n = 1) ∧
    (completes (run (make_barrier n) ops) op = false →
      (step (run (make_barrier n) ops) op).generation
        = (run (make_barrier n) ops).generation) ∧
    (completes (run (make_barrier n) ops) op = true →
      (step (run (make_barrier n) ops) op).generation
        = ((run (make_barrier n) ops).generation + 1) % SIZE_MOD) ∧
    ((run (make_barrier n) ops).generation + 1 < SIZE_MOD →
      (run (make_barrier n) ops).generation
        ≤ (step (run (make_barrier n) ops) op).generation ∧
      ((step (run (make_barrier n) ops) op).generation
          = (run (make_barrier n) ops).generation + 1
        ↔ completes (run (make_barrier n) ops) op = true)) ∧
    (rounds_completed (make_barrier n) (ops ++ more) < SIZE_MOD →
      (run (make_barrier n) ops).generation
        ≤ (run (make_barrier n) (ops ++ more)).generation) := by
  have hstep := step_generation (run (make_barrier n) ops) op
  refine ⟨run_generation_fresh n ops, completes_iff _ op, ?_, ?_, ?_, ?_⟩
  · intro hc
    rw [hstep, hc]
    simp
  · intro hc
    rw [hstep, hc]
    simp
  · intro hlt
    rw [hstep]
    by_cases hc : completes (run (make_barrier n) ops) op = true
    · simp only [hc, if_true, Nat.mod_eq_of_lt hlt, iff_true, and_true]
      omega
    · simp only [hc]
      simp
  · intro hlt
    rw [run_generation_fresh n (ops ++ more), run_generation_fresh n ops,
      Nat.mod_eq_of_lt hlt, rounds_completed_append]
    rw [rounds_completed_append] at hlt
    rw [Nat.mod_eq_of_lt (by omega)]
    omega

/-- Witness for C8 amended: the second arrival on a barrier of threshold 2
completes the first round and takes `generation` from 0 to 1. -/
theorem generation_counts_rounds_witness :
    (step (run (make_barrier 2) [Op.wait]) Op.wait).generation
      = (run (make_barrier 2) [Op.wait]).generation + 1 ∧
    (run (make_barrier 2) [Op.wait]).generation
      ≤ (run (make_barrier 2) ([Op.wait] ++ [Op.wait, Op.wait])).generation := by
  have h := generation_counts_rounds 2 [Op.wait] [Op.wait, Op.wait] Op.wait
  exact ⟨(h.2.2.2.2.1 (by decide)).2.2 (by decide), h.2.2.2.2.2 (by decide)⟩

/-- C9 as stated fails: `barrier_reinit` stores any value in `n`.  On a barrier
of threshold 1, `barrier_reinit(b, 5)` leaves `n = 5 > threshold`; on a barrier
of threshold 2, `barrier_reinit(b, 0)` followed by one `barrier_wait` leaves
`n = 2^64 - 1 > threshold`. -/
theorem remaining_exceeds_threshold :
    (run (make_barrier 1) [Op.reinit 5]).n = 5 ∧
    (run (make_barrier 1) [Op.reinit 5]).threshold = 1 ∧
    (run (make_barrier 2) [Op.reinit 0, Op.wait]).n = 18446744073709551615 ∧
    (run (make_barrier 2) [Op.reinit 0, Op.wait]).threshold = 2 := by
  decide

/-- C9, amended (range invariant under in-range reinitialisation).  For a
barrier made with threshold `N ≥ 1`, after any sequence of `barrier_wait` and
`barrier_reinit` calls in which every `barrier_reinit` argument is between 1
and `N`, `1 ≤ n ≤ threshold` and `threshold = N`. -/
theorem remaining_range (N : Nat) (ops : List Op) (hN : 1 ≤ N)
    (hops : ∀ op ∈ ops, op.within N) :
    1 ≤ (run (make_barrier N) ops).n ∧
    (run (make_barrier N) ops).n ≤ (run (make_barrier N) ops).threshold ∧
    (run (make_barrier N) ops).threshold = N :=
  run_keeps_range N ops (make_barrier N) hops ⟨hN, Nat.le_refl N, rfl⟩

/-- Witness for C9 amended: threshold 3 with one reinitialisation to 2. -/
theorem remaining_range_witness :
    1 ≤ (run (make_barrier 3) [Op.wait, Op.reinit 2, Op.wait, Op.wait]).n ∧
    (run (make_barrier 3) [Op.wait, Op.reinit 2, Op.wait, Op.wait]).n
      ≤ (run (make_barrier 3) [Op.wait, Op.reinit 2, Op.wait, Op.wait]).threshold ∧
    (run (make_barrier 3) [Op.wait, Op.reinit 2, Op.wait, Op.wait]).threshold = 3 :=
  remaining_range 3 [Op.wait, Op.reinit 2, Op.wait, Op.wait] (by decide) (by decide)

/-- C11 as stated fails: `make_barrier(0)` raises nothing, it returns the
barrier with `n = 0`, `threshold = 0`, `generation = 0`. -/
theorem make_barrier_zero_not_rejected :
    make_barrier_call 0 ≠ Except.error BarrierError.InvalidArgument ∧
    make_barrier_call 0 = Except.ok { n := 0, threshold := 0, generation := 0 } := by
  refine ⟨?_, rfl⟩
  intro h
  cases h

/-- C11, amended (construction is never rejected).  For every `n`, 0
included, `make_barrier n` raises no error and returns a barrier; for `n = 0`
that barrier has `n = 0`, `threshold = 0` and `generation = 0`. -/
theorem make_barrier_never_rejects (n : Nat) :
    make_barrier_call n = Except.ok (make_barrier n) ∧
    (∃ b : barrier, make_barrier_call 0 = Except.ok b ∧
      b.n = 0 ∧ b.threshold = 0 ∧ b.generation = 0) :=
  ⟨rfl, ⟨make_barrier 0, rfl, rfl, rfl, rfl⟩⟩

/-- C12 (the legacy variant is the same barrier with a no-op reinitialize).
Reading `mCount`, `mThreshold`, `mGeneration` as `n`, `threshold`,
`generation`: the legacy `make_barrier n` is `make_barrier n`; one legacy
`barrier_wait` from any state gives the same fields, the same notification and
the same suspend-or-return decision as `barrier_wait` of `barrier.cpp`; so do
`k` calls followed by one more, from `make_barrier n`, for every `n` and `k`;
the legacy wait predicate is the wait predicate of `barrier.cpp` on every
snapshot and state, so a woken legacy caller returns or is suspended again
exactly as in `barrier.cpp`; hence over every sequence of arrivals and
wake-ups, from any state, the two variants keep the same fields and the same
set of suspended callers; and the legacy `barrier_reinit` returns the state
it was given, whatever its argument. -/
theorem legacy_same_barrier (n k m l i : Nat) (b : Old.barrier) (s : Old.System)
    (es : List Event) :
    (Old.make_barrier n).view = make_barrier n ∧
    ((Old.barrier_wait b).state.view = (barrier_wait b.view).state ∧
      (Old.barrier_wait b).notified = (barrier_wait b.view).notified ∧
      (Old.barrier_wait b).suspended = (barrier_wait b.view).suspended) ∧
    (Old.waits k (Old.make_barrier n)).view = waits k (make_barrier n) ∧
    (Old.barrier_wait (Old.waits k (Old.make_barrier n))).notified
      = (barrier_wait (waits k (make_barrier n))).notified ∧
    (Old.barrier_wait (Old.waits k (Old.make_barrier n))).suspended
      = (barrier_wait (waits k (make_barrier n))).suspended ∧
    Old.barrier_reinit b m = b ∧
    Old.Barrier.pred l b.b = wait_pred l b.view ∧
    (Old.Barrier.pred l b.b = true ↔ l ≠ b.b.mGeneration) ∧
    s.arrive.view = s.view.arrive ∧
    (s.wake i).view = s.view.wake i ∧
    (s.trace es).view = s.view.trace es ∧
    (({ b := Old.make_barrier n, waiting := [] } : Old.System).trace es).view
      = (System.quiescent (make_barrier n)).trace es ∧
    s.reinit m = s := by
  have hk : (Old.waits k (Old.make_barrier n)).view = waits k (make_barrier n) :=
    old_waits_sim k (Old.make_barrier n)
  have hs := old_wait_sim (Old.waits k (Old.make_barrier n))
  rw [hk] at hs
  refine ⟨rfl, old_wait_sim b, hk, hs.2.1, hs.2.2, rfl, rfl, ?_, old_arrive_sim s,
    old_wake_sim s i, old_trace_sim es s, old_trace_sim es _, rfl⟩
  simp [Old.Barrier.pred]

/-- C15 (generation wrap-around is harmless).  Take a barrier whose generation
is `2^64 - 1`, with `c ≥ 1` arrivals still missing and nobody suspended.  The
first `c - 1` arrivals suspend with snapshot `2^64 - 1`; the `c`-th is the
last arrival and leaves `generation = 0`; the wait predicate of every caller
suspended in that round is then true, so a wake-up releases them all. -/
theorem wrap_is_harmless (b : barrier) (c : Nat) (hc : 1 ≤ c) (hn : b.n = c)
    (hg : b.generation = SIZE_MOD - 1) :
    (barrier_wait (System.arrive^[c - 1] (System.quiescent b)).b).notified = true ∧
    (barrier_wait (System.arrive^[c - 1] (System.quiescent b)).b).state.generation = 0 ∧
    (System.arrive^[c] (System.quiescent b)).b.generation = 0 ∧
    (System.arrive^[c] (System.quiescent b)).waiting = List.replicate (c - 1) (SIZE_MOD - 1) ∧
    (∀ l ∈ (System.arrive^[c] (System.quiescent b)).waiting,
      wait_pred l (System.arrive^[c] (System.quiescent b)).b = true) ∧
    (System.arrive^[c] (System.quiescent b)).wake_all.waiting = [] := by
  obtain ⟨_, hlast, hall⟩ := round_of (System.quiescent b) c hn hc
  have hq : (System.quiescent b).b.generation = SIZE_MOD - 1 := hg
  have hrel : ∀ l ∈ (System.arrive^[c] (System.quiescent b)).waiting,
      wait_pred l (System.arrive^[c] (System.quiescent b)).b = true := by
    rw [hall]
    simp only [System.quiescent, List.append_nil]
    apply wait_pred_replicate
    simp only [wait_pred, bne_iff_ne, ne_eq]
    exact fun h => bump_ne b.generation h.symm
  refine ⟨?_, ?_, ?_, ?_, hrel, wake_all_released _ hrel⟩
  · rw [hlast]
  · rw [hlast, hq]
    exact size_max_succ_mod
  · rw [hall, hq]
    exact size_max_succ_mod
  · rw [hall, hq]
    simp [System.quiescent]

/-- Witness for C15: three participants in generation `2^64 - 1`. -/
theorem wrap_is_harmless_witness :
    (System.arrive^[3] (System.quiescent
      { n := 3, threshold := 3, generation := SIZE_MOD - 1 })).b.generation = 0 ∧
    (System.arrive^[3] (System.quiescent
      { n := 3, threshold := 3, generation := SIZE_MOD - 1 })).wake_all.waiting = [] := by
  have h := wrap_is_harmless { n := 3, threshold := 3, generation := SIZE_MOD - 1 } 3
    (by decide) rfl rfl
  exact ⟨h.2.2.1, h.2.2.2.2.2⟩

/-- C17 (a barrier with `n = 0` is starved).  `make_barrier 0` and
`barrier_reinit b 0` have `n = 0`.  On any barrier with `n = 0` the next
`barrier_wait` takes `n` to `2^64 - 1`, does not notify, keeps `generation`
and suspends its caller; after `k + 1` calls, `k < 2^64 - 1`, `n` is
`2^64 - 1 - k` and `generation` is unchanged; each of the first `2^64 - 1`
calls is not a last arrival, and call number `2^64` is. -/
theorem zero_remaining_starves (s : System) (b : barrier) (h : s.b.n = 0) :
    (make_barrier 0).n = 0 ∧
    (barrier_reinit b 0).n = 0 ∧
    (barrier_wait s.b).state.n = SIZE_MOD - 1 ∧
    (barrier_wait s.b).state.generation = s.b.generation ∧
    (barrier_wait s.b).notified = false ∧
    (barrier_wait s.b).suspended = some s.b.generation ∧
    (∀ k, k < SIZE_MOD - 1 →
      (System.arrive^[k + 1] s).b.n = SIZE_MOD - 1 - k ∧
      (System.arrive^[k + 1] s).b.generation = s.b.generation) ∧
    (∀ k, k < SIZE_MOD - 1 → (barrier_wait (System.arrive^[k] s).b).notified = false) ∧
    (barrier_wait (System.arrive^[SIZE_MOD - 1] s).b).notified = true := by
  obtain ⟨_, hiter⟩ := starved s h
  have hM : 2 ≤ SIZE_MOD := by unfold SIZE_MOD; norm_num
  refine ⟨rfl, rfl, ?_, ?_, ?_, ?_, ?_, ?_, ?_⟩
  · rw [wait_wrap s.b h]
  · rw [wait_wrap s.b h]
  · rw [wait_wrap s.b h]
  · rw [wait_wrap s.b h]
  · intro k hk
    rw [hiter k hk]
    exact ⟨rfl, rfl⟩
  · intro k hk
    cases k with
    | zero =>
      rw [Function.iterate_zero, id, wait_wrap s.b h]
    | succ j =>
      rw [hiter j (by omega), wait_not_last _ (by simp only; omega)]
  · have hs : SIZE_MOD - 1 = (SIZE_MOD - 2) + 1 := by omega
    rw [hs, hiter (SIZE_MOD - 2) (by omega), wait_last _ (by simp only; omega)]

/-- Witness for C17: the first two calls on `make_barrier 0`. -/
theorem zero_remaining_starves_witness :
    (barrier_wait (System.quiescent (make_barrier 0)).b).suspended = some 0 ∧
    (System.arrive^[0 + 1] (System.quiescent (make_barrier 0))).b.n = SIZE_MOD - 1 - 0 ∧
    (barrier_wait (System.arrive^[1] (System.quiescent (make_barrier 0))).b).notified = false := by
  have hM : 1 < SIZE_MOD - 1 := by unfold SIZE_MOD; norm_num
  have h := zero_remaining_starves (System.quiescent (make_barrier 0)) (make_barrier 0) rfl
  exact ⟨h.2.2.2.2.2.1, (h.2.2.2.2.2.2.1 0 (by omega)).1, h.2.2.2.2.2.2.2.1 1 hM⟩

/-- C14 (generation comparison separates rounds).  Start round `g` of a barrier
of `N ≥ 1` participants and let it complete (`N` arrivals): the `N - 1` callers
suspended with snapshot `g` are still in the wait set.  However many arrivals
`k` follow, as long as they complete fewer than `2^64 - 1` further rounds
(`k / N < 2^64 - 1`), the predicate of snapshot `g` stays true.  During the
next round, after `k < N` of its arrivals the wait set holds exactly the `k`
callers of that round, with snapshot `g + 1` (size_t arithmetic), on top of
the callers of round `g`; a caller that arrives as number `i + 1 < N` of that
round suspends with snapshot `g + 1`, lowers the count of that round from
`N - i` to `N - i - 1` and keeps the generation; the predicate of snapshot
`g + 1` is false after every `k < N` arrivals of that round and true after the
`N`-th, which is the last arrival. -/
theorem generation_separates_rounds (N g : Nat) (hN : 1 ≤ N) (hg : g < SIZE_MOD) :
    (System.arrive^[N] (round_start N g)).waiting = List.replicate (N - 1) g ∧
    (System.arrive^[N] (round_start N g)).b.generation = (g + 1) % SIZE_MOD ∧
    (∀ k, k / N < SIZE_MOD - 1 →
      wait_pred g (System.arrive^[k + N] (round_start N g)).b = true) ∧
    (∀ k, k < N →
      (System.arrive^[k + N] (round_start N g)).waiting =
        List.replicate k ((g + 1) % SIZE_MOD) ++ List.replicate (N - 1) g) ∧
    (∀ i, i < N - 1 →
      (barrier_wait (System.arrive^[i + N] (round_start N g)).b).suspended
        = some ((g + 1) % SIZE_MOD) ∧
      (barrier_wait (System.arrive^[i + N] (round_start N g)).b).notified = false ∧
      (System.arrive^[i + N] (round_start N g)).b.n = N - i ∧
      (barrier_wait (System.arrive^[i + N] (round_start N g)).b).state.n = N - i - 1 ∧
      (barrier_wait (System.arrive^[i + N] (round_start N g)).b).state.generation
        = (g + 1) % SIZE_MOD) ∧
    (∀ k, k < N →
      wait_pred ((g + 1) % SIZE_MOD) (System.arrive^[k + N] (round_start N g)).b = false) ∧
    (barrier_wait (System.arrive^[N - 1 + N] (round_start N g)).b).notified = true ∧
    wait_pred ((g + 1) % SIZE_MOD) (System.arrive^[N + N] (round_start N g)).b = true := by
  have hdone := round_completed N g hN
  refine ⟨?_, ?_, ?_, ?_, ?_, ?_, ?_, ?_⟩
  · rw [hdone]
  · rw [hdone]
  · intro k hk
    rw [arrivals_from_round N g hN hg (k + N), Nat.add_div_right k hN]
    simp only [wait_pred, bne_iff_ne, ne_eq]
    exact fun h => add_mod_ne g (k / N + 1) hg (Nat.le_add_left 1 _)
      (Nat.add_lt_of_lt_sub hk) h.symm
  · intro k hk
    rw [next_round_underway N g k hN hk]
  · intro i hi
    rw [next_round_underway N g i hN (by omega), wait_not_last _ (by simp only; omega)]
    exact ⟨rfl, rfl, rfl, rfl, rfl⟩
  · intro k hk
    rw [next_round_underway N g k hN hk]
    simp [wait_pred]
  · rw [next_round_underway N g (N - 1) hN (by omega), wait_last _ (by simp only; omega)]
  · rw [Function.iterate_add_apply, hdone]
    have h := (round_of
      { b := { n := N, threshold := N, generation := (g + 1) % SIZE_MOD },
        waiting := List.replicate (N - 1) g } N rfl hN).2.2
    rw [h]
    simp only [wait_pred, bne_iff_ne, ne_eq]
    exact fun h => bump_ne _ h.symm

/-- Witness for C14: three participants, round 7 completed, one fast caller of
round 8 suspended on top of the two slow callers of round 7. -/
theorem generation_separates_rounds_witness :
    (System.arrive^[1 + 3] (round_start 3 7)).waiting =
      List.replicate 1 ((7 + 1) % SIZE_MOD) ++ List.replicate (3 - 1) 7 ∧
    wait_pred 7 (System.arrive^[5 + 3] (round_start 3 7)).b = true ∧
    wait_pred ((7 + 1) % SIZE_MOD) (System.arrive^[2 + 3] (round_start 3 7)).b = false := by
  have hM : 7 < SIZE_MOD := by unfold SIZE_MOD; norm_num
  have hj : 5 / 3 < SIZE_MOD - 1 := by unfold SIZE_MOD; norm_num
  have h := generation_separates_rounds 3 7 (by decide) hM
  exact ⟨h.2.2.2.1 1 (by decide), h.2.2.1 5 hj, h.2.2.2.2.2.1 2 (by decide)⟩

/-- C16 as stated fails once `generation` has wrapped.  On a barrier of two
participants let `2^65` calls of `barrier_wait` arrive while the first caller,
suspended with snapshot 0, is never woken: `2^64` rounds are complete,
`generation` is 0 again and `n = 2`, so no arrival of the current round is
missing; yet the first caller is still suspended, its snapshot equals the
current generation, and it is not free to return. -/
theorem stale_waiter_after_wrap :
    ((System.quiescent (make_barrier 2)).trace
      (List.replicate 36893488147419103232 Event.arrive)).b.n = 2 ∧
    ((System.quiescent (make_barrier 2)).trace
      (List.replicate 36893488147419103232 Event.arrive)).b.generation = 0 ∧
    0 ∈ ((System.quiescent (make_barrier 2)).trace
      (List.replicate 36893488147419103232 Event.arrive)).waiting ∧
    ((System.quiescent (make_barrier 2)).trace
      (List.replicate 36893488147419103232 Event.arrive)).blocked
      ≠ 2 - ((System.quiescent (make_barrier 2)).trace
          (List.replicate 36893488147419103232 Event.arrive)).b.n := by
  rw [trace_arrivals]
  have hb := arrivals_from_fresh 2 (by decide) 36893488147419103232
  have hn : 2 - 36893488147419103232 % 2 = 2 := by norm_num
  have hg : 36893488147419103232 / 2 % SIZE_MOD = 0 := by
    unfold SIZE_MOD
    norm_num
  rw [hn, hg] at hb
  have hmem := first_waiter_stays 36893488147419103231
  have hlit : 36893488147419103231 + 1 = 36893488147419103232 := by norm_num
  rw [hlit] at hmem
  refine ⟨?_, ?_, hmem, ?_⟩
  · rw [hb]
  · rw [hb]
  · have hpos := List.count_pos_iff.2 hmem
    simp only [System.blocked]
    rw [hb]
    simp only [Nat.sub_self]
    omega

/-- C16, amended (waiter-count invariant before the generation wraps).  For a
barrier made with threshold `N ≥ 1` and used only through `barrier_wait`, in
every state reached by fewer than `2^64 * N` arrivals, with any wake-ups of
suspended callers in between: `1 ≤ n ≤ N`; the number of suspended callers
whose snapshot equals the current generation is exactly `N - n`, and a wake-up
suspends them again; every other suspended caller passes the test of its
predicate and returns. -/
theorem waiter_count_invariant (N : Nat) (es : List Event) (hN : 1 ≤ N)
    (hk : arrivals_in es < SIZE_MOD * N) :
    1 ≤ ((System.quiescent (make_barrier N)).trace es).b.n ∧
    ((System.quiescent (make_barrier N)).trace es).b.n ≤ N ∧
    ((System.quiescent (make_barrier N)).trace es).blocked
      = N - ((System.quiescent (make_barrier N)).trace es).b.n ∧
    (∀ l ∈ ((System.quiescent (make_barrier N)).trace es).waiting,
      (l = ((System.quiescent (make_barrier N)).trace es).b.generation →
        cond_wait l ((System.quiescent (make_barrier N)).trace es).b = some l) ∧
      (l ≠ ((System.quiescent (make_barrier N)).trace es).b.generation →
        cond_wait l ((System.quiescent (make_barrier N)).trace es).b = none)) := by
  have h := counted_trace N es (System.quiescent (make_barrier N)) 0
    (counted_start N hN) (by omega)
  obtain ⟨_, h2, h3, _, _, h6⟩ := h
  refine ⟨h2, h3, h6, ?_⟩
  intro l _
  constructor
  · intro hl
    simp [cond_wait, wait_pred, hl]
  · intro hl
    simp [cond_wait, wait_pred, hl]

/-- Witness for C16 amended: three arrivals on a barrier of two participants,
then the caller of the first round wakes and returns. -/
theorem waiter_count_invariant_witness :
    ((System.quiescent (make_barrier 2)).trace
      [Event.arrive, Event.arrive, Event.arrive, Event.wake 1]).blocked
      = 2 - ((System.quiescent (make_barrier 2)).trace
          [Event.arrive, Event.arrive, Event.arrive, Event.wake 1]).b.n :=
  (waiter_count_invariant 2 [Event.arrive, Event.arrive, Event.arrive, Event.wake 1]
    (by decide) (by decide)).2.2.1

/-- Without the mutex the same statements interleave badly: on a barrier of two
participants both threads can stand at the bump of round 0 at once.  With the
mutex, under the same schedule, the second thread is still waiting to enter. -/
theorem unguarded_two_at_bump :
    ((Conc.init (make_barrier 2)).exec false [0, 0, 0, 1, 1, 1, 0, 1]).pcs 0 = Pc.at_bump 0 ∧
    ((Conc.init (make_barrier 2)).exec false [0, 0, 0, 1, 1, 1, 0, 1]).pcs 1 = Pc.at_bump 0 ∧
    ((Conc.init (make_barrier 2)).exec true [0, 0, 0, 1, 1, 1, 0, 1]).pcs 0 = Pc.at_wait 0 ∧
    ((Conc.init (make_barrier 2)).exec true [0, 0, 0, 1, 1, 1, 0, 1]).pcs 1 = Pc.idle := by
  decide

end Libmoon
